import Mathlib

/-!
Verification of the example-database layer of the `hypothesis` repository:
the converter family (`src/hypothesis/database/converter.py`), the
`Storage`/`ExampleDatabase` layer (`src/hypothesis/database/__init__.py`)
and the `SQLiteBackend` contract (`src/hypothesis/database/backend.py`).

Python values flowing through the converters are modelled by the inductive
type `PyVal`.  A converter method that can raise an exception is modelled as
a function into `Option` (`Option.none` = the call raised).  The mutable
SQLite table behind `SQLiteBackend` is modelled as an explicit list of
(key, value) rows threaded through each operation; the `unique(key, value)`
constraint together with the `except IntegrityError: pass` in `save`
becomes a membership test.
-/

/-- Model of the Python values handled by the database layer: `None`,
`int`, `str` (unicode text), `bytes`, `tuple`, `list` and `dict`. -/
inductive PyVal where
  | none : PyVal
  | int (n : Int) : PyVal
  | str (s : String) : PyVal
  | bytes (bs : List Nat) : PyVal
  | tuple (l : List PyVal) : PyVal
  | list (l : List PyVal) : PyVal
  | dict (entries : List (PyVal × PyVal)) : PyVal

mutual

def PyVal.decEq : (a b : PyVal) → Decidable (a = b)
  | .none, .none => isTrue rfl
  | .int a, .int b =>
    if h : a = b then isTrue (by rw [h]) else isFalse (fun hh => h (PyVal.int.inj hh))
  | .str a, .str b =>
    if h : a = b then isTrue (by rw [h]) else isFalse (fun hh => h (PyVal.str.inj hh))
  | .bytes a, .bytes b =>
    if h : a = b then isTrue (by rw [h]) else isFalse (fun hh => h (PyVal.bytes.inj hh))
  | .tuple l, .tuple m =>
    match PyVal.decEqL l m with
    | isTrue h => isTrue (by rw [h])
    | isFalse h => isFalse (fun hh => h (PyVal.tuple.inj hh))
  | .list l, .list m =>
    match PyVal.decEqL l m with
    | isTrue h => isTrue (by rw [h])
    | isFalse h => isFalse (fun hh => h (PyVal.list.inj hh))
  | .dict l, .dict m =>
    match PyVal.decEqE l m with
    | isTrue h => isTrue (by rw [h])
    | isFalse h => isFalse (fun hh => h (PyVal.dict.inj hh))
  | .none, .int _ => isFalse (fun h => PyVal.noConfusion h)
  | .none, .str _ => isFalse (fun h => PyVal.noConfusion h)
  | .none, .bytes _ => isFalse (fun h => PyVal.noConfusion h)
  | .none, .tuple _ => isFalse (fun h => PyVal.noConfusion h)
  | .none, .list _ => isFalse (fun h => PyVal.noConfusion h)
  | .none, .dict _ => isFalse (fun h => PyVal.noConfusion h)
  | .int _, .none => isFalse (fun h => PyVal.noConfusion h)
  | .int _, .str _ => isFalse (fun h => PyVal.noConfusion h)
  | .int _, .bytes _ => isFalse (fun h => PyVal.noConfusion h)
  | .int _, .tuple _ => isFalse (fun h => PyVal.noConfusion h)
  | .int _, .list _ => isFalse (fun h => PyVal.noConfusion h)
  | .int _, .dict _ => isFalse (fun h => PyVal.noConfusion h)
  | .str _, .none => isFalse (fun h => PyVal.noConfusion h)
  | .str _, .int _ => isFalse (fun h => PyVal.noConfusion h)
  | .str _, .bytes _ => isFalse (fun h => PyVal.noConfusion h)
  | .str _, .tuple _ => isFalse (fun h => PyVal.noConfusion h)
  | .str _, .list _ => isFalse (fun h => PyVal.noConfusion h)
  | .str _, .dict _ => isFalse (fun h => PyVal.noConfusion h)
  | .bytes _, .none => isFalse (fun h => PyVal.noConfusion h)
  | .bytes _, .int _ => isFalse (fun h => PyVal.noConfusion h)
  | .bytes _, .str _ => isFalse (fun h => PyVal.noConfusion h)
  | .bytes _, .tuple _ => isFalse (fun h => PyVal.noConfusion h)
  | .bytes _, .list _ => isFalse (fun h => PyVal.noConfusion h)
  | .bytes _, .dict _ => isFalse (fun h => PyVal.noConfusion h)
  | .tuple _, .none => isFalse (fun h => PyVal.noConfusion h)
  | .tuple _, .int _ => isFalse (fun h => PyVal.noConfusion h)
  | .tuple _, .str _ => isFalse (fun h => PyVal.noConfusion h)
  | .tuple _, .bytes _ => isFalse (fun h => PyVal.noConfusion h)
  | .tuple _, .list _ => isFalse (fun h => PyVal.noConfusion h)
  | .tuple _, .dict _ => isFalse (fun h => PyVal.noConfusion h)
  | .list _, .none => isFalse (fun h => PyVal.noConfusion h)
  | .list _, .int _ => isFalse (fun h => PyVal.noConfusion h)
  | .list _, .str _ => isFalse (fun h => PyVal.noConfusion h)
  | .list _, .bytes _ => isFalse (fun h => PyVal.noConfusion h)
  | .list _, .tuple _ => isFalse (fun h => PyVal.noConfusion h)
  | .list _, .dict _ => isFalse (fun h => PyVal.noConfusion h)
  | .dict _, .none => isFalse (fun h => PyVal.noConfusion h)
  | .dict _, .int _ => isFalse (fun h => PyVal.noConfusion h)
  | .dict _, .str _ => isFalse (fun h => PyVal.noConfusion h)
  | .dict _, .bytes _ => isFalse (fun h => PyVal.noConfusion h)
  | .dict _, .tuple _ => isFalse (fun h => PyVal.noConfusion h)
  | .dict _, .list _ => isFalse (fun h => PyVal.noConfusion h)
termination_by structural a => a

def PyVal.decEqL : (l m : List PyVal) → Decidable (l = m)
  | [], [] => isTrue rfl
  | [], _ :: _ => isFalse (fun h => List.noConfusion h)
  | _ :: _, [] => isFalse (fun h => List.noConfusion h)
  | a :: as, b :: bs =>
    match PyVal.decEq a b, PyVal.decEqL as bs with
    | isTrue h1, isTrue h2 => isTrue (by rw [h1, h2])
    | isFalse h1, _ => isFalse (fun h => h1 (List.cons.inj h).1)
    | _, isFalse h2 => isFalse (fun h => h2 (List.cons.inj h).2)
termination_by structural l => l

def PyVal.decEqE : (l m : List (PyVal × PyVal)) → Decidable (l = m)
  | [], [] => isTrue rfl
  | [], _ :: _ => isFalse (fun h => List.noConfusion h)
  | _ :: _, [] => isFalse (fun h => List.noConfusion h)
  | (k1, v1) :: as, (k2, v2) :: bs =>
    match PyVal.decEq k1 k2, PyVal.decEq v1 v2, PyVal.decEqE as bs with
    | isTrue h1, isTrue h2, isTrue h3 => isTrue (by rw [h1, h2, h3])
    | isFalse h1, _, _ =>
      isFalse (fun h => h1 (congrArg Prod.fst (List.cons.inj h).1))
    | _, isFalse h2, _ =>
      isFalse (fun h => h2 (congrArg Prod.snd (List.cons.inj h).1))
    | _, _, isFalse h3 => isFalse (fun h => h3 (List.cons.inj h).2)
termination_by structural l => l

end

instance : DecidableEq PyVal := PyVal.decEq

/-- Python `type(v).__name__` for the modelled values (used by
`FixedKeyDictConverter` to sort the dict keys). -/
def PyVal.className : PyVal → String
  | .none => "NoneType"
  | .int _ => "int"
  | .str _ => "str"
  | .bytes _ => "bytes"
  | .tuple _ => "tuple"
  | .list _ => "list"
  | .dict _ => "dict"

/-- Hex digit characters, used for byte escapes in `repr` of bytes. -/
def hexDigitChar (n : Nat) : Char := "0123456789abcdef".toList.getD n '0'

/-- Two-digit lowercase hex rendering of a byte. -/
def hex2 (n : Nat) : String :=
  String.mk [hexDigitChar (n / 16 % 16), hexDigitChar (n % 16)]

mutual

/-- Python `repr` for the modelled values.  Escaping inside `str` and
`bytes` literals is simplified (every byte is shown as a hex escape and
text is quoted verbatim); only determinism and the ordering of simple
keys matter for the properties below. -/
def pyRepr : PyVal → String
  | .none => "None"
  | .int n => toString n
  | .str s => "\x27" ++ s ++ "\x27"
  | .bytes bs => "b\x27" ++ String.join (bs.map (fun b => "\\x" ++ hex2 b)) ++ "\x27"
  | .tuple l =>
    "(" ++ String.intercalate ", " (pyReprL l) ++ (if l.length = 1 then ",)" else ")")
  | .list l => "[" ++ String.intercalate ", " (pyReprL l) ++ "]"
  | .dict e => "\x7b" ++ String.intercalate ", " (pyReprE e) ++ "\x7d"
termination_by structural v => v

def pyReprL : List PyVal → List String
  | [] => []
  | v :: vs => pyRepr v :: pyReprL vs
termination_by structural l => l

def pyReprE : List (PyVal × PyVal) → List String
  | [] => []
  | (k, v) :: es => (pyRepr k ++ ": " ++ pyRepr v) :: pyReprE es
termination_by structural l => l

end

/-- Python list/tuple indexing `l[i]`, including negative indices. -/
def pyListGet {α : Type} (l : List α) (i : Int) : Option α :=
  if 0 ≤ i then l.get? i.toNat
  else if (-i).toNat ≤ l.length then l.get? (l.length - (-i).toNat) else Option.none

/-- Python iteration `for x in v`: tuples and lists yield their elements,
strings yield one-character strings, bytes yield ints, dicts yield their
keys; other values raise `TypeError` (modelled as `Option.none`). -/
def pyIter : PyVal → Option (List PyVal)
  | .tuple l => some l
  | .list l => some l
  | .str s => some (s.toList.map (fun c => PyVal.str (String.mk [c])))
  | .bytes bs => some (bs.map PyVal.int)
  | .dict e => some (e.map (fun p => p.1))
  | _ => Option.none

/-- Python subscription `v[k]`: dict lookup by key equality, integer
indexing for tuples/lists/strings; anything else raises (`Option.none`). -/
def pyGetItem : PyVal → PyVal → Option PyVal
  | .dict e, k => (e.find? (fun p => p.1 = k)).map (fun p => p.2)
  | .tuple l, .int i => pyListGet l i
  | .list l, .int i => pyListGet l i
  | .str s, .int i => (pyListGet s.toList i).map (fun c => PyVal.str (String.mk [c]))
  | _, _ => Option.none

/-- Left-to-right mapping of a fallible function over a list, stopping at
the first raised exception: the semantics of a Python list comprehension
whose body may raise. -/
def pyMapO {α β : Type} (f : α → Option β) : List α → Option (List β)
  | [] => some []
  | x :: xs =>
    match f x, pyMapO f xs with
    | some y, some ys => some (y :: ys)
    | _, _ => Option.none

/-- Model of `Converter`: `to_json` munges a value into a JSON-compatible
shape, `from_json` inverts it.  Both may raise, modelled by `Option`. -/
structure Conv where
  to_json : PyVal → Option PyVal
  from_json : PyVal → Option PyVal

/-- Model of `GenericConverter` / `generic_format`: the identity
converter used as the fallback. -/
def generic_format : Conv := ⟨fun v => some v, fun v => some v⟩

/-- The base64 alphabet used by `base64.b64encode`. -/
def b64alphabet : List Char :=
  "ABCDEFGHIJKLMNOPQRSTUVWXYZabcdefghijklmnopqrstuvwxyz0123456789+/".toList

/-- Character for a 6-bit group. -/
def encChar (n : Nat) : Char := b64alphabet.getD n '?'

/-- Index of a character in the base64 alphabet. -/
def decChar (c : Char) : Nat := b64alphabet.indexOf c

/-- Model of `base64.b64encode`: bytes are grouped three at a time into
four 6-bit groups, with `=` padding for a trailing group of one or two
bytes. -/
def b64e : List Nat → List Char
  | [] => []
  | [a] => [encChar (a / 4), encChar (a % 4 * 16), '=', '=']
  | [a, b] => [encChar (a / 4), encChar (a % 4 * 16 + b / 16), encChar (b % 16 * 4), '=']
  | a :: b :: c :: rest =>
    encChar (a / 4) :: encChar (a % 4 * 16 + b / 16) ::
      encChar (b % 16 * 4 + c / 64) :: encChar (c % 64) :: b64e rest

/-- Model of `base64.b64decode` on well-formed base64 text: four
characters decode to three bytes, with `=` padding cutting the final
group short. -/
def b64d : List Char → List Nat
  | c0 :: c1 :: c2 :: c3 :: rest =>
    if c2 = '=' then [decChar c0 * 4 + decChar c1 / 16]
    else if c3 = '=' then
      [decChar c0 * 4 + decChar c1 / 16, decChar c1 % 16 * 16 + decChar c2 / 4]
    else
      (decChar c0 * 4 + decChar c1 / 16) ::
        (decChar c1 % 16 * 16 + decChar c2 / 4) ::
        (decChar c2 % 4 * 64 + decChar c3) :: b64d rest
  | _ => []

/-- Model of `BinaryConverter.to_json`: base64-encode a byte string into
text; `b64encode` raises `TypeError` on anything that is not bytes. -/
def BinaryConverter.to_json (v : PyVal) : Option PyVal :=
  match v with
  | .bytes bs => some (.str (String.mk (b64e bs)))
  | _ => Option.none

/-- Model of `BinaryConverter.from_json`: base64-decode text back into a
byte string; a non-text payload has no `.encode` method and raises. -/
def BinaryConverter.from_json (v : PyVal) : Option PyVal :=
  match v with
  | .str s => some (.bytes (b64d s.toList))
  | _ => Option.none

/-- The `BinaryConverter` instance registered for `binary_type`. -/
def binary_format : Conv := ⟨BinaryConverter.to_json, BinaryConverter.from_json⟩

/-- Model of `TupleConverter.to_json` (the converter holds the per-slot
sub-converters `tuple_formats`): a length-1 tuple is encoded as the bare
encoding of `value[0]`; any other arity zips the formats with the value
and encodes slot by slot into a list. -/
def TupleConverter.to_json (tuple_formats : List Conv) (value : PyVal) : Option PyVal :=
  match tuple_formats with
  | [f] => (pyGetItem value (PyVal.int 0)).bind f.to_json
  | _ =>
    (pyIter value).bind (fun elems =>
      (pyMapO (fun p => p.1.to_json p.2) (tuple_formats.zip elems)).map PyVal.list)

/-- Model of `TupleConverter.from_json`: a length-1 tuple is rebuilt from
the bare payload; any other arity zips the formats with the payload
(`zip` stops at the shorter of the two) and decodes slot by slot. -/
def TupleConverter.from_json (tuple_formats : List Conv) (value : PyVal) : Option PyVal :=
  match tuple_formats with
  | [f] => (f.from_json value).map (fun x => PyVal.tuple [x])
  | _ =>
    (pyIter value).bind (fun elems =>
      (pyMapO (fun p => p.1.from_json p.2) (tuple_formats.zip elems)).map PyVal.tuple)

/-- The `TupleConverter` instance for a given list of sub-converters. -/
def tuple_converter (tuple_formats : List Conv) : Conv :=
  ⟨TupleConverter.to_json tuple_formats, TupleConverter.from_json tuple_formats⟩

/-- The sort relation `FixedKeyDictConverter.__init__` uses on dict keys:
Python `sorted(keys, key=lambda t: (t.__class__.__name__, repr(t)))`,
i.e. lexicographic comparison of the pair (type name, repr). -/
def keyRel (a b : PyVal) : Prop :=
  PyVal.className a < PyVal.className b ∨
    (PyVal.className a = PyVal.className b ∧ pyRepr a ≤ pyRepr b)

instance : DecidableRel keyRel := fun a b =>
  inferInstanceAs (Decidable (PyVal.className a < PyVal.className b ∨
    (PyVal.className a = PyVal.className b ∧ pyRepr a ≤ pyRepr b)))

instance : IsTotal PyVal keyRel :=
  ⟨fun a b => by
    rcases lt_trichotomy (PyVal.className a) (PyVal.className b) with h | h | h
    · exact Or.inl (Or.inl h)
    · rcases le_total (pyRepr a) (pyRepr b) with h2 | h2
      · exact Or.inl (Or.inr ⟨h, h2⟩)
      · exact Or.inr (Or.inr ⟨h.symm, h2⟩)
    · exact Or.inr (Or.inl h)⟩

instance : IsTrans PyVal keyRel :=
  ⟨fun a b c hab hbc => by
    rcases hab with h1 | ⟨h1, h1r⟩ <;> rcases hbc with h2 | ⟨h2, h2r⟩
    · exact Or.inl (lt_trans h1 h2)
    · exact Or.inl (by rw [← h2]; exact h1)
    · exact Or.inl (by rw [h1]; exact h2)
    · exact Or.inr ⟨h1.trans h2, le_trans h1r h2r⟩⟩

/-- Model of the `FixedKeyDictConverter` constructor: the keys of the
descriptor dict are sorted by (type name, repr) and each is paired with
its sub-converter.  `insertionSort` stands in for Python's stable
comparison sort; the per-key lookup mirrors `dict_of_formats[k]`. -/
def FixedKeyDictConverter.mkFormats (dict_of_formats : List (PyVal × Conv)) :
    List (PyVal × Conv) :=
  (List.insertionSort keyRel (dict_of_formats.map (fun p => p.1))).filterMap
    (fun k => ((dict_of_formats.find? (fun p => p.1 = k)).map (fun p => (k, p.2))))

/-- Model of `FixedKeyDictConverter.to_json`: look each canonical key up
in the dict being encoded and encode the values in canonical key order
into a list. -/
def FixedKeyDictConverter.to_json (formats : List (PyVal × Conv)) (value : PyVal) :
    Option PyVal :=
  (pyMapO (fun kf => (pyGetItem value kf.1).bind kf.2.to_json) formats).map PyVal.list

/-- Model of `FixedKeyDictConverter.from_json`: zip the canonical
(key, format) list with the stored array (`zip` stops at the shorter)
and rebuild the dict. -/
def FixedKeyDictConverter.from_json (formats : List (PyVal × Conv)) (value : PyVal) :
    Option PyVal :=
  (pyIter value).bind (fun elems =>
    (pyMapO (fun p => ((p.1.2.from_json p.2).map (fun x => (p.1.1, x))))
      (formats.zip elems)).map PyVal.dict)

/-- The `FixedKeyDictConverter` instance for a given canonical format
list. -/
def fixed_key_dict_converter (formats : List (PyVal × Conv)) : Conv :=
  ⟨FixedKeyDictConverter.to_json formats, FixedKeyDictConverter.from_json formats⟩

/-- Model of `OneOfConverter`: parallel lists of sub-converters and
sub-strategies (the constructor asserts they have equal length). -/
structure OneOfConverter where
  formats : List Conv
  strategies : List (PyVal → Bool)

/-- The loop inside `OneOfConverter.to_json`: scan the alternatives in
declared order and encode with the first whose `could_have_produced`
accepts the value, tagging the payload with that branch index; if no
alternative accepts, the loop falls off the end and Python returns
`None`. -/
def oneOfLoop : List (PyVal → Bool) → List Conv → Nat → PyVal → Option PyVal
  | s :: ss, f :: fs, i, v =>
    if s v then (f.to_json v).map (fun p => PyVal.list [PyVal.int (Int.ofNat i), p])
    else oneOfLoop ss fs (i + 1) v
  | _, _, _, _ => some PyVal.none

/-- Model of `OneOfConverter.to_json`. -/
def OneOfConverter.to_json (c : OneOfConverter) (v : PyVal) : Option PyVal :=
  oneOfLoop c.strategies c.formats 0 v

/-- Model of `OneOfConverter.from_json`: unpack `i, x = value` (which
needs an iterable of exactly two items, the first an int usable as a
list index) and dispatch to `formats[i]` — the strategies are never
consulted. -/
def OneOfConverter.from_json (c : OneOfConverter) (value : PyVal) : Option PyVal :=
  match pyIter value with
  | some [PyVal.int i, x] => (pyListGet c.formats i).bind (fun f => f.from_json x)
  | _ => Option.none

/-- The `OneOfConverter` instance as a `Conv`. -/
def one_of_converter (c : OneOfConverter) : Conv :=
  ⟨OneOfConverter.to_json c, OneOfConverter.from_json c⟩

/-- Unicode escape `\uXXXX` used by `json.dumps` (ensure_ascii). -/
def uEscape (n : Nat) : String :=
  "\\u" ++ String.mk [hexDigitChar (n / 4096 % 16), hexDigitChar (n / 256 % 16),
    hexDigitChar (n / 16 % 16), hexDigitChar (n % 16)]

/-- Escaping of one character inside a JSON string literal, following
`json.dumps` with its default `ensure_ascii=True` (non-ASCII characters
beyond the basic plane become surrogate pairs). -/
def jsonEscapeChar (c : Char) : String :=
  if c = '"' then "\\\""
  else if c = '\\' then "\\\\"
  else if c = '\n' then "\\n"
  else if c = '\t' then "\\t"
  else if c = '\r' then "\\r"
  else if c.toNat = 8 then "\\b"
  else if c.toNat = 12 then "\\f"
  else if c.toNat < 32 ∨ 126 < c.toNat then
    if c.toNat < 65536 then uEscape c.toNat
    else
      uEscape (55296 + (c.toNat - 65536) / 1024) ++ uEscape (56320 + (c.toNat - 65536) % 1024)
  else String.mk [c]

/-- A JSON string literal for the given text. -/
def jsonQuote (s : String) : String :=
  "\"" ++ String.join (s.toList.map jsonEscapeChar) ++ "\""

mutual

/-- Model of `json.dumps` (with its default separators) restricted to
the value shapes the converters emit.  `bytes` are not JSON serializable
and raise `TypeError`; dict keys other than text do not occur in the
encodings produced here and are modelled as raising. -/
def dumps : PyVal → Option String
  | .none => some "null"
  | .int n => some (toString n)
  | .str s => some (jsonQuote s)
  | .bytes _ => Option.none
  | .tuple l => (dumpsL l).map (fun parts => "[" ++ String.intercalate ", " parts ++ "]")
  | .list l => (dumpsL l).map (fun parts => "[" ++ String.intercalate ", " parts ++ "]")
  | .dict e => (dumpsE e).map (fun parts => "\x7b" ++ String.intercalate ", " parts ++ "\x7d")
termination_by structural v => v

def dumpsL : List PyVal → Option (List String)
  | [] => some []
  | v :: vs =>
    match dumps v, dumpsL vs with
    | some s, some ss => some (s :: ss)
    | _, _ => Option.none
termination_by structural l => l

def dumpsE : List (PyVal × PyVal) → Option (List String)
  | [] => some []
  | (PyVal.str k, v) :: es =>
    match dumps v, dumpsE es with
    | some s, some ss => some ((jsonQuote k ++ ": " ++ s) :: ss)
    | _, _ => Option.none
  | _ => Option.none
termination_by structural l => l

end

/-- Skip JSON whitespace. -/
def skipWs : List Char → List Char
  | c :: cs => if c = ' ' ∨ c = '\t' ∨ c = '\n' ∨ c = '\r' then skipWs cs else c :: cs
  | [] => []

/-- Consume a run of decimal digits, accumulating their value. -/
def parseDigits (acc : Nat) : List Char → Nat × List Char
  | c :: cs =>
    if c.isDigit then parseDigits (acc * 10 + (c.toNat - 48)) cs else (acc, c :: cs)
  | [] => (acc, [])

/-- Value of one hex digit. -/
def hexVal (c : Char) : Option Nat :=
  if c.isDigit then some (c.toNat - 48)
  else if 'a' ≤ c ∧ c ≤ 'f' then some (c.toNat - 87)
  else if 'A' ≤ c ∧ c ≤ 'F' then some (c.toNat - 55)
  else Option.none

/-- Parse the body of a JSON string literal (after the opening quote) up
to its closing quote, resolving escapes.  Surrogate escapes are not
modelled (the texts produced by `dumps` on the values handled here use
them only for astral characters, which do not occur in the stored
encodings this development reasons about). -/
def parseStrChars : Nat → List Char → Option (List Char × List Char)
  | 0, _ => Option.none
  | _ + 1, [] => Option.none
  | fuel + 1, c :: cs =>
    if c = '"' then some ([], cs)
    else if c = '\\' then
      match cs with
      | 'u' :: h1 :: h2 :: h3 :: h4 :: cs2 =>
        match hexVal h1, hexVal h2, hexVal h3, hexVal h4 with
        | some a, some b, some c2, some d =>
          let n := a * 4096 + b * 256 + c2 * 16 + d
          if 55296 ≤ n ∧ n < 57344 then Option.none
          else (parseStrChars fuel cs2).map (fun r => (Char.ofNat n :: r.1, r.2))
        | _, _, _, _ => Option.none
      | e :: cs2 =>
        match (if e = '"' then some '"' else if e = '\\' then some '\\'
          else if e = '/' then some '/' else if e = 'n' then some '\n'
          else if e = 't' then some '\t' else if e = 'r' then some '\r'
          else if e = 'b' then some (Char.ofNat 8) else if e = 'f' then some (Char.ofNat 12)
          else Option.none) with
        | some ec => (parseStrChars fuel cs2).map (fun r => (ec :: r.1, r.2))
        | Option.none => Option.none
      | [] => Option.none
    else (parseStrChars fuel cs).map (fun r => (c :: r.1, r.2))

mutual

/-- Fuel-indexed recursive-descent JSON parser for the fragment of JSON
the converters and `dumps` produce: `null`, integers, strings and
arrays.  JSON arrays load as Python lists and `null` loads as `None`,
as `json.loads` does. -/
def parseVal : Nat → List Char → Option (PyVal × List Char)
  | 0, _ => Option.none
  | fuel + 1, cs =>
    match skipWs cs with
    | 'n' :: 'u' :: 'l' :: 'l' :: cs2 => some (PyVal.none, cs2)
    | '"' :: cs2 =>
      (parseStrChars (cs2.length + 1) cs2).map (fun r => (PyVal.str (String.mk r.1), r.2))
    | '-' :: c :: cs2 =>
      if c.isDigit then
        let r := parseDigits (c.toNat - 48) cs2
        some (PyVal.int (-(Int.ofNat r.1)), r.2)
      else Option.none
    | '[' :: cs2 =>
      match skipWs cs2 with
      | ']' :: cs3 => some (PyVal.list [], cs3)
      | _ => (parseItems fuel cs2).map (fun r => (PyVal.list r.1, r.2))
    | c :: cs2 =>
      if c.isDigit then
        let r := parseDigits (c.toNat - 48) cs2
        some (PyVal.int (Int.ofNat r.1), r.2)
      else Option.none
    | [] => Option.none
termination_by structural fuel => fuel

def parseItems : Nat → List Char → Option (List PyVal × List Char)
  | 0, _ => Option.none
  | fuel + 1, cs =>
    match parseVal fuel cs with
    | some (v, rest) =>
      match skipWs rest with
      | ',' :: rest2 => (parseItems fuel rest2).map (fun r => (v :: r.1, r.2))
      | ']' :: rest2 => some ([v], rest2)
      | _ => Option.none
    | Option.none => Option.none
termination_by structural fuel => fuel

end

/-- Model of `json.loads`: parse one value and require only whitespace
to remain. -/
def loads (s : String) : Option PyVal :=
  match parseVal (s.length + 1) s.toList with
  | some (v, rest) => if skipWs rest = [] then some v else Option.none
  | Option.none => Option.none

/-- Model of the `SQLiteBackend` table `hypothesis_data_mapping`: the
list of (key, value) rows in insertion order.  `save` inserts a row;
the `unique(key, value)` constraint plus the swallowed `IntegrityError`
makes a duplicate insert a no-op. -/
def SQLiteBackend.save (db : List (String × String)) (key value : String) :
    List (String × String) :=
  if (key, value) ∈ db then db else db ++ [(key, value)]

/-- Model of `SQLiteBackend.fetch`: every value stored under the key. -/
def SQLiteBackend.fetch (db : List (String × String)) (key : String) : List String :=
  (db.filter (fun r => r.1 = key)).map (fun r => r.2)

/-- Structural shapes of descriptors: the database layer treats
descriptors as opaque apart from hashing and rendering, so a minimal
shape language suffices. -/
inductive DescShape where
  | intS : DescShape
  | textS : DescShape
  | listS (el : DescShape) : DescShape
deriving DecidableEq

/-- Modelled from the spec: `nice_string` (in `hypothesis.searchstrategy`,
not under src/) renders a descriptor canonically and deterministically,
independent of object identity — modelled as a function of the
structural shape alone. -/
def niceString : DescShape → String
  | .intS => "int"
  | .textS => "text"
  | .listS el => "[" ++ niceString el ++ "]"

/-- A descriptor object: a structural shape plus an object identity
(`objId`) that canonical hashing and rendering must ignore. -/
structure Descriptor where
  shape : DescShape
  objId : Nat

/-- Modelled from the spec: `HashItAnyway`
(`hypothesis.internal.utils.hashitanyway`, not under src/) wraps a
descriptor so that dict lookup uses a deterministic structural hash and
structural equality, independent of object identity — modelled as the
structural shape itself, a perfect structural hash. -/
def hashItAnyway (d : Descriptor) : DescShape := d.shape

/-- Model of `Storage`: one descriptor bound to its backend key
(`nice_string` of the descriptor), its converter and its
validator-strategy. -/
structure Storage where
  descriptor : Descriptor
  key : String
  converter : Conv
  strategy : PyVal → Bool

/-- Model of `Storage.save`: raise a `ValueError` if the strategy's
`could_have_produced` rejects the value, otherwise encode with the
converter, serialize with `json.dumps` and write (key, text) to the
backend.  Returns (backend rows after the call, raised error if any);
any raise leaves the rows untouched. -/
def Storage.save (st : Storage) (db : List (String × String)) (value : PyVal) :
    List (String × String) × Option String :=
  if st.strategy value then
    match st.converter.to_json value with
    | some converted =>
      match dumps converted with
      | some serialized => (SQLiteBackend.save db st.key serialized, Option.none)
      | Option.none => (db, some "json.dumps raised TypeError")
    | Option.none => (db, some "to_json raised")
  else
    (db, some ("Argument " ++ pyRepr value ++ " does not match description " ++ st.key))

/-- The generator loop inside `Storage.fetch` applied to the texts read
from the backend: deserialize, decode and validate each in turn,
yielding the decoded values; the first failure raises, aborting the
iteration after the values already yielded. -/
def fetchItems (st : Storage) : List String → List PyVal × Option String
  | [] => ([], Option.none)
  | t :: rest =>
    match loads t with
    | Option.none => ([], some "json.loads raised")
    | some j =>
      match st.converter.from_json j with
      | Option.none => ([], some "from_json raised")
      | some v =>
        if st.strategy v then
          let r := fetchItems st rest
          (v :: r.1, r.2)
        else
          ([], some ("Value " ++ pyRepr (PyVal.str t) ++ " does not match description " ++ st.key))

/-- Model of `Storage.fetch`: read all texts for the bound key and run
the loop above. -/
def Storage.fetch (st : Storage) (db : List (String × String)) :
    List PyVal × Option String :=
  fetchItems st (SQLiteBackend.fetch db st.key)

/-- Model of `ExampleDatabase`: converter and strategy resolution for a
descriptor (the `ConverterTable`/`StrategyTable` lookups, abstracted as
functions), plus the memoization cache from structural hash to the
`Storage` built for it. -/
structure ExampleDatabase where
  convFor : Descriptor → Conv
  stratFor : Descriptor → PyVal → Bool
  storage_cache : List (DescShape × Storage)

/-- Model of `ExampleDatabase.storage_for`: look the descriptor's
structural hash up in the cache; on a miss build a `Storage` (key =
`nice_string`, converter and strategy resolved for the descriptor) and
cache it under the hash.  Returns the storage and the updated
database. -/
def ExampleDatabase.storage_for (db : ExampleDatabase) (descriptor : Descriptor) :
    Storage × ExampleDatabase :=
  match db.storage_cache.find? (fun p => p.1 = hashItAnyway descriptor) with
  | some p => (p.2, db)
  | Option.none =>
    let result : Storage :=
      { descriptor := descriptor, key := niceString descriptor.shape,
        converter := db.convFor descriptor, strategy := db.stratFor descriptor }
    (result, { db with storage_cache := db.storage_cache ++ [(hashItAnyway descriptor, result)] })

/-- A converter round-trips a value when encoding succeeds and decoding
the encoding returns the value unchanged. -/
def RoundTrips (f : Conv) (v : PyVal) : Prop :=
  ∃ j, f.to_json v = some j ∧ f.from_json j = some v

theorem decChar_encChar : ∀ n, n < 64 → decChar (encChar n) = n := by decide

theorem encChar_ne_pad : ∀ n, n < 64 → encChar n ≠ '=' := by decide

theorem b64_rt : ∀ l : List Nat, (∀ x ∈ l, x < 256) → b64d (b64e l) = l
  | [], _ => rfl
  | [a], h => by
    have ha : a < 256 := h a (by simp)
    have e1 := decChar_encChar (a / 4) (by omega)
    have e2 := decChar_encChar (a % 4 * 16) (by omega)
    simp only [b64e, b64d, if_true, e1, e2, List.cons.injEq, and_true]
    omega
  | [a, b], h => by
    have ha : a < 256 := h a (by simp)
    have hb : b < 256 := h b (by simp)
    have e1 := decChar_encChar (a / 4) (by omega)
    have e2 := decChar_encChar (a % 4 * 16 + b / 16) (by omega)
    have e3 := decChar_encChar (b % 16 * 4) (by omega)
    simp only [b64e, b64d, if_neg (encChar_ne_pad (b % 16 * 4) (by omega)), if_true,
      e1, e2, e3, List.cons.injEq, and_true]
    omega
  | a :: b :: c :: rest, h => by
    have ha : a < 256 := h a (by simp)
    have hb : b < 256 := h b (by simp)
    have hc : c < 256 := h c (by simp)
    have hrest : ∀ x ∈ rest, x < 256 := fun x hx =>
      h x (List.mem_cons_of_mem _ (List.mem_cons_of_mem _ (List.mem_cons_of_mem _ hx)))
    have e1 := decChar_encChar (a / 4) (by omega)
    have e2 := decChar_encChar (a % 4 * 16 + b / 16) (by omega)
    have e3 := decChar_encChar (b % 16 * 4 + c / 64) (by omega)
    have e4 := decChar_encChar (c % 64) (by omega)
    simp only [b64e, b64d, if_neg (encChar_ne_pad (b % 16 * 4 + c / 64) (by omega)),
      if_neg (encChar_ne_pad (c % 64) (by omega)), e1, e2, e3, e4,
      List.cons.injEq]
    exact ⟨by omega, by omega, by omega, b64_rt rest hrest⟩

/-- C1: for every byte string b (the value shape the binary descriptor's
validator accepts), decoding the encoding gives back exactly b:
`from_json (to_json b) = b` for the `BinaryConverter`, hence the decoded
value is again accepted and is equivalent (equal) to the original. -/
theorem binary_roundtrip (bs : List Nat) (h : ∀ x ∈ bs, x < 256) :
    (binary_format.to_json (PyVal.bytes bs)).bind binary_format.from_json
      = some (PyVal.bytes bs) := by
  show (BinaryConverter.to_json (PyVal.bytes bs)).bind BinaryConverter.from_json
      = some (PyVal.bytes bs)
  simp only [BinaryConverter.to_json, BinaryConverter.from_json, Option.bind]
  have : (String.mk (b64e bs)).toList = b64e bs := rfl
  rw [this, b64_rt bs h]

/-- Witness for C1 at the spec's concrete example, the byte string
`b"\x00\xff"` (which base64-encodes to `"AP8="`). -/
theorem binary_roundtrip_witness :
    (binary_format.to_json (PyVal.bytes [0, 255])).bind binary_format.from_json
      = some (PyVal.bytes [0, 255]) :=
  binary_roundtrip [0, 255] (by decide)

theorem pyMapO_congr {α β : Type} (f g : α → Option β) (l : List α)
    (h : ∀ x ∈ l, f x = g x) : pyMapO f l = pyMapO g l := by
  induction l with
  | nil => rfl
  | cons x xs ih =>
    simp only [pyMapO, h x (List.mem_cons_self x xs),
      ih (fun y hy => h y (List.mem_cons_of_mem x hy))]

theorem pyMapO_of_isSome {α β : Type} (f : α → Option β) (l : List α)
    (h : ∀ x ∈ l, (f x).isSome = true) :
    ∃ ys, pyMapO f l = some ys ∧ ys.length = l.length := by
  induction l with
  | nil => exact ⟨[], rfl, rfl⟩
  | cons x xs ih =>
    obtain ⟨y, hy⟩ := Option.isSome_iff_exists.mp (h x (List.mem_cons_self x xs))
    obtain ⟨ys, hys, hlen⟩ := ih (fun z hz => h z (List.mem_cons_of_mem x hz))
    exact ⟨y :: ys, by simp [pyMapO, hy, hys], by simp [hlen]⟩

theorem pyMapO_zip_rt (fmts : List Conv) (vs : List PyVal)
    (h : List.Forall₂ RoundTrips fmts vs) :
    ∃ js, pyMapO (fun p => p.1.to_json p.2) (fmts.zip vs) = some js ∧
      pyMapO (fun p => p.1.from_json p.2) (fmts.zip js) = some vs := by
  induction h with
  | nil => exact ⟨[], rfl, rfl⟩
  | cons hfv _ ih =>
    obtain ⟨j, hj1, hj2⟩ := hfv
    obtain ⟨js, hjs1, hjs2⟩ := ih
    refine ⟨j :: js, ?_, ?_⟩
    · simp only [List.zip] at hjs1
      simp only [List.zip, List.zipWith_cons_cons, pyMapO, hj1]
      rw [hjs1]
    · simp only [List.zip] at hjs2
      simp only [List.zip, List.zipWith_cons_cons, pyMapO, hj2]
      rw [hjs2]

theorem fkd_zip_rt (formats : List (PyVal × Conv)) (vs : List PyVal) (v : PyVal)
    (h : List.Forall₂ (fun kf x => pyGetItem v kf.1 = some x ∧ RoundTrips kf.2 x) formats vs) :
    ∃ js, pyMapO (fun kf => (pyGetItem v kf.1).bind kf.2.to_json) formats = some js ∧
      pyMapO (fun p => ((p.1.2.from_json p.2).map (fun x => (p.1.1, x)))) (formats.zip js)
        = some ((formats.map (fun p => p.1)).zip vs) := by
  induction h with
  | cons hfv _ ih =>
    obtain ⟨hget, j, hj1, hj2⟩ := hfv
    obtain ⟨js, hjs1, hjs2⟩ := ih
    refine ⟨j :: js, ?_, ?_⟩
    · simp only [pyMapO, hget, Option.some_bind, hj1]
      rw [hjs1]
    · simp only [List.zip] at hjs2
      simp only [List.zip, List.zipWith_cons_cons, pyMapO, hj2, Option.map_some',
        List.map_cons]
      rw [hjs2]
  | nil => exact ⟨[], rfl, rfl⟩

theorem oneOfLoop_first : ∀ (ss : List (PyVal → Bool)) (fs : List Conv) (v p : PyVal)
    (k i : Nat) (hi : i < ss.length) (hlen : ss.length = fs.length),
    ss.get ⟨i, hi⟩ v = true →
    (∀ j (hj : j < i), ss.get ⟨j, Nat.lt_trans hj hi⟩ v = false) →
    (fs.get ⟨i, hlen ▸ hi⟩).to_json v = some p →
    oneOfLoop ss fs k v = some (PyVal.list [PyVal.int (Int.ofNat (k + i)), p])
  | s :: ss, f :: fs, v, p, k, 0, hi, hlen, hacc, hfirst, hp => by
    have h1 : s v = true := hacc
    have h2 : f.to_json v = some p := hp
    simp [oneOfLoop, h1, h2]
  | s :: ss, f :: fs, v, p, k, i + 1, hi, hlen, hacc, hfirst, hp => by
    have h0 : s v = false := hfirst 0 (Nat.succ_pos i)
    have heq : k + (i + 1) = (k + 1) + i := by omega
    have hrec := oneOfLoop_first ss fs v p (k + 1) i (Nat.lt_of_succ_lt_succ hi)
      (Nat.succ.inj hlen) hacc (fun j hj => hfirst (j + 1) (Nat.succ_lt_succ hj)) hp
    simp only [oneOfLoop, h0]
    rw [heq]
    simpa using hrec
  | [], _, _, _, _, i, hi, _, _, _, _ => absurd hi (by simp)
  | _ :: _, [], _, _, _, _, _, hlen, _, _, _ => by simp at hlen

theorem oneOfLoop_no_match : ∀ (ss : List (PyVal → Bool)) (fs : List Conv) (k : Nat)
    (v : PyVal), (∀ s ∈ ss, s v = false) → oneOfLoop ss fs k v = some PyVal.none
  | [], fs, k, v, _ => by cases fs <;> rfl
  | _ :: _, [], _, _, _ => rfl
  | s :: ss, f :: fs, k, v, h => by
    have h0 : s v = false := h s (List.mem_cons_self s ss)
    have hrec := oneOfLoop_no_match ss fs (k + 1) v
      (fun s2 hs => h s2 (List.mem_cons_of_mem s hs))
    simp only [oneOfLoop, h0]
    simpa using hrec

theorem find?_append_of_none {α : Type} (l : List α) (x : α) (p : α → Bool)
    (h : l.find? p = Option.none) (hx : p x = true) :
    (l ++ [x]).find? p = some x := by
  induction l with
  | nil => simp [List.find?, hx]
  | cons a as ih =>
    cases hpa : p a with
    | true =>
      rw [List.find?_cons_of_pos _ hpa] at h
      exact absurd h (by simp)
    | false =>
      rw [List.find?_cons_of_neg _ (by simp [hpa])] at h
      rw [List.cons_append, List.find?_cons_of_neg _ (by simp [hpa])]
      exact ih h

theorem filterMap_lookup_keys (entries : List (PyVal × Conv)) (keys : List PyVal)
    (h : ∀ k ∈ keys, ∃ q ∈ entries, q.1 = k) :
    ((keys.filterMap (fun k =>
        ((entries.find? (fun p => p.1 = k)).map (fun p => (k, p.2))))).map (fun p => p.1))
      = keys := by
  induction keys with
  | nil => rfl
  | cons k ks ih =>
    obtain ⟨q, hq, hqk⟩ := h k (List.mem_cons_self k ks)
    have hne : entries.find? (fun p => p.1 = k) ≠ Option.none := by
      intro hnone
      rw [List.find?_eq_none] at hnone
      have := hnone q hq
      simp [hqk] at this
    obtain ⟨r, hr⟩ := Option.ne_none_iff_exists'.mp hne
    rw [List.filterMap_cons]
    simp only [hr, Option.map_some']
    rw [List.map_cons]
    exact congrArg _ (ih (fun k2 hk2 => h k2 (List.mem_cons_of_mem k hk2)))

theorem mkFormats_keys_sorted (entries : List (PyVal × Conv)) :
    List.Sorted keyRel ((FixedKeyDictConverter.mkFormats entries).map (fun p => p.1)) := by
  have hkeys : ∀ k ∈ List.insertionSort keyRel (entries.map (fun p => p.1)),
      ∃ q ∈ entries, q.1 = k := by
    intro k hk
    have hmem : k ∈ entries.map (fun p => p.1) :=
      (List.perm_insertionSort keyRel (entries.map (fun p => p.1))).mem_iff.mp hk
    obtain ⟨q, hq, hqk⟩ := List.mem_map.mp hmem
    exact ⟨q, hq, hqk⟩
  unfold FixedKeyDictConverter.mkFormats
  rw [filterMap_lookup_keys entries _ hkeys]
  exact List.sorted_insertionSort keyRel _

/-- C2: Storage.save raises a validation ValueError and leaves the
backend rows untouched when the strategy rejects the value (no partial
write); when the strategy accepts the value and encoding and
serialization succeed, it performs exactly one backend write of the
single record (key, text), which appends that one row unless an
identical row already exists. -/
theorem storage_save_gate (st : Storage) (db : List (String × String)) (v : PyVal) :
    (st.strategy v = false →
      st.save db v
        = (db, some ("Argument " ++ pyRepr v ++ " does not match description " ++ st.key)))
    ∧ (∀ j t, st.strategy v = true → st.converter.to_json v = some j → dumps j = some t →
        st.save db v = (SQLiteBackend.save db st.key t, Option.none)
          ∧ SQLiteBackend.save db st.key t
              = (if (st.key, t) ∈ db then db else db ++ [(st.key, t)])) := by
  constructor
  · intro hrej
    simp [Storage.save, hrej]
  · intro j t hacc hj ht
    exact ⟨by simp [Storage.save, hacc, hj, ht], rfl⟩

/-- Witness for C2: a storage for the int descriptor whose validator
only accepts the value 5; saving the text value is rejected with the
backend left empty, saving 5 writes exactly the one row. -/
theorem storage_save_gate_witness :
    Storage.save ⟨⟨DescShape.intS, 0⟩, "int", generic_format, fun v => v = PyVal.int 5⟩ []
        (PyVal.str "x")
      = ([], some "Argument \x27x\x27 does not match description int")
    ∧ Storage.save ⟨⟨DescShape.intS, 0⟩, "int", generic_format, fun v => v = PyVal.int 5⟩ []
        (PyVal.int 5)
      = ([("int", "5")], Option.none) := by
  constructor
  · exact (storage_save_gate _ [] (PyVal.str "x")).1 (by decide)
  · have h := ((storage_save_gate
      (⟨⟨DescShape.intS, 0⟩, "int", generic_format, fun v => v = PyVal.int 5⟩ : Storage) []
      (PyVal.int 5)).2 (PyVal.int 5) "5" (by decide) rfl rfl).1
    rw [h]
    rfl

/-- C3: two descriptors with equal canonical structural hashes map to
the identical cached Storage instance — the second storage_for call
returns exactly the Storage the first call returned — and the two
descriptors render to the same backend key string. -/
theorem storage_for_cache_identity (db : ExampleDatabase) (d1 d2 : Descriptor)
    (h : hashItAnyway d1 = hashItAnyway d2) :
    ((db.storage_for d1).2.storage_for d2).1 = (db.storage_for d1).1
    ∧ niceString d1.shape = niceString d2.shape := by
  have hsh : d1.shape = d2.shape := h
  refine ⟨?_, by rw [hsh]⟩
  unfold ExampleDatabase.storage_for
  rw [← h]
  cases hfind : db.storage_cache.find? (fun p => p.1 = hashItAnyway d1) with
  | some p => simp [hfind]
  | none =>
    simp only [hfind]
    have happ := find?_append_of_none db.storage_cache
      (hashItAnyway d1,
        ({ descriptor := d1, key := niceString d1.shape, converter := db.convFor d1,
           strategy := db.stratFor d1 } : Storage))
      (fun p => p.1 = hashItAnyway d1) hfind (by simp)
    simp [happ]

/-- Witness for C3: two int descriptors with distinct object identities
share the cached Storage and the key string. -/
theorem storage_for_cache_identity_witness :
    ((ExampleDatabase.storage_for ⟨fun _ => generic_format, fun _ _ => true, []⟩
          ⟨DescShape.intS, 0⟩).2.storage_for ⟨DescShape.intS, 1⟩).1
      = (ExampleDatabase.storage_for ⟨fun _ => generic_format, fun _ _ => true, []⟩
          ⟨DescShape.intS, 0⟩).1
    ∧ niceString (Descriptor.mk DescShape.intS 0).shape
        = niceString (Descriptor.mk DescShape.intS 1).shape :=
  storage_for_cache_identity ⟨fun _ => generic_format, fun _ _ => true, []⟩
    ⟨DescShape.intS, 0⟩ ⟨DescShape.intS, 1⟩ rfl

/-- C4: the OneOf converter encodes a value accepted by at least one
alternative as the pair [i, payload], i being the index of the first
alternative in declared order whose validator accepts it (deterministic:
to_json is a function of the declared lists); and decode of [i, x]
dispatches directly to the i-th sub-converter, for any strategies
whatsoever — membership is never re-validated. -/
theorem one_of_first_match (c : OneOfConverter) (v p : PyVal) (i : Nat)
    (hlen : c.strategies.length = c.formats.length)
    (hi : i < c.strategies.length)
    (hacc : c.strategies.get ⟨i, hi⟩ v = true)
    (hfirst : ∀ j (hj : j < i), c.strategies.get ⟨j, Nat.lt_trans hj hi⟩ v = false)
    (hp : (c.formats.get ⟨i, hlen ▸ hi⟩).to_json v = some p) :
    OneOfConverter.to_json c v = some (PyVal.list [PyVal.int (Int.ofNat i), p])
    ∧ ∀ (strategies2 : List (PyVal → Bool)) (x : PyVal),
        OneOfConverter.from_json ⟨c.formats, strategies2⟩
            (PyVal.list [PyVal.int (Int.ofNat i), x])
          = (c.formats.get ⟨i, hlen ▸ hi⟩).from_json x := by
  constructor
  · have := oneOfLoop_first c.strategies c.formats v p 0 i hi hlen hacc hfirst hp
    simpa [OneOfConverter.to_json] using this
  · intro strategies2 x
    have hg : pyListGet c.formats ((i : Nat) : Int) = some (c.formats.get ⟨i, hlen ▸ hi⟩) := by
      rw [pyListGet, if_pos (Int.natCast_nonneg i)]
      rw [show ((i : Nat) : Int).toNat = i from Int.toNat_natCast i]
      exact List.get?_eq_get (hlen ▸ hi)
    simp [OneOfConverter.from_json, pyIter, hg]

/-- Witness for C4 at the spec example: the value 5 is accepted by both
of two overlapping alternatives and encodes with branch index 0. -/
theorem one_of_first_match_witness :
    OneOfConverter.to_json
        ⟨[generic_format, generic_format], [fun v => v = PyVal.int 5, fun _ => true]⟩
        (PyVal.int 5)
      = some (PyVal.list [PyVal.int 0, PyVal.int 5]) :=
  (one_of_first_match
    ⟨[generic_format, generic_format], [fun v => v = PyVal.int 5, fun _ => true]⟩
    (PyVal.int 5) (PyVal.int 5) 0 rfl (by decide) (by decide)
    (fun j hj => absurd hj (Nat.not_lt_zero j)) rfl).1

/-- C5: a duplicate (key, text) pair is a no-op for the backend, a
repeated Storage.save of the same value changes nothing, backend rows
stay duplicate-free, fetch never yields duplicate texts, and after
saving the same value twice into an empty backend exactly one record is
retrievable under the storage key. -/
theorem backend_save_idempotent :
    (∀ (db : List (String × String)) (k t : String),
        SQLiteBackend.save (SQLiteBackend.save db k t) k t = SQLiteBackend.save db k t)
    ∧ (∀ (st : Storage) (db : List (String × String)) (v : PyVal),
        Storage.save st (Storage.save st db v).1 v = Storage.save st db v)
    ∧ (∀ (db : List (String × String)) (k t : String),
        db.Nodup → (SQLiteBackend.save db k t).Nodup)
    ∧ (∀ (db : List (String × String)) (k : String),
        db.Nodup → (SQLiteBackend.fetch db k).Nodup)
    ∧ (∀ (st : Storage) (v : PyVal),
        (Storage.save st [] v).2 = Option.none →
        ∃ t, SQLiteBackend.fetch (Storage.save st (Storage.save st [] v).1 v).1 st.key
          = [t]) := by
  have h1 : ∀ (db : List (String × String)) (k t : String),
      SQLiteBackend.save (SQLiteBackend.save db k t) k t = SQLiteBackend.save db k t := by
    intro db k t
    by_cases hmem : (k, t) ∈ db
    · simp [SQLiteBackend.save, hmem]
    · simp [SQLiteBackend.save, hmem]
  have h2 : ∀ (st : Storage) (db : List (String × String)) (v : PyVal),
      Storage.save st (Storage.save st db v).1 v = Storage.save st db v := by
    intro st db v
    by_cases hacc : st.strategy v = true
    · cases hj : st.converter.to_json v with
      | none => simp [Storage.save, hacc, hj]
      | some j =>
        cases ht : dumps j with
        | none => simp [Storage.save, hacc, hj, ht]
        | some t => simp [Storage.save, hacc, hj, ht, h1]
    · have hrej : st.strategy v = false := by simpa using hacc
      simp [Storage.save, hrej]
  have h3 : ∀ (db : List (String × String)) (k t : String),
      db.Nodup → (SQLiteBackend.save db k t).Nodup := by
    intro db k t hnd
    unfold SQLiteBackend.save
    by_cases hmem : (k, t) ∈ db
    · simpa [hmem]
    · rw [if_neg hmem]
      refine List.Nodup.append hnd (List.nodup_singleton _) ?_
      intro x hx hx2
      rw [List.mem_singleton] at hx2
      exact hmem (hx2 ▸ hx)
  have h4 : ∀ (db : List (String × String)) (k : String),
      db.Nodup → (SQLiteBackend.fetch db k).Nodup := by
    intro db k hnd
    unfold SQLiteBackend.fetch
    refine List.Nodup.map_on ?_ (hnd.filter _)
    intro x hx y hy hxy
    have hxk : x.1 = k := by simpa using (List.mem_filter.mp hx).2
    have hyk : y.1 = k := by simpa using (List.mem_filter.mp hy).2
    exact Prod.ext (hxk.trans hyk.symm) hxy
  have h5 : ∀ (st : Storage) (v : PyVal),
      (Storage.save st [] v).2 = Option.none →
      ∃ t, SQLiteBackend.fetch (Storage.save st (Storage.save st [] v).1 v).1 st.key
        = [t] := by
    intro st v hok
    by_cases hacc : st.strategy v = true
    · cases hj : st.converter.to_json v with
      | none => simp [Storage.save, hacc, hj] at hok
      | some j =>
        cases ht : dumps j with
        | none => simp [Storage.save, hacc, hj, ht] at hok
        | some t =>
          refine ⟨t, ?_⟩
          rw [h2]
          simp [Storage.save, hacc, hj, ht, SQLiteBackend.save, SQLiteBackend.fetch]
    · have hrej : st.strategy v = false := by simpa using hacc
      simp [Storage.save, hrej] at hok
  exact ⟨h1, h2, h3, h4, h5⟩

/-- Witness for C5: saving one row into a one-row table keeps the rows
duplicate-free. -/
theorem backend_save_idempotent_witness :
    (SQLiteBackend.save [("a", "b")] "k" "t").Nodup :=
  backend_save_idempotent.2.2.1 [("a", "b")] "k" "t" (by decide)

theorem tupleToJson_ne_one (fmts : List Conv) (h : fmts.length ≠ 1) (v : PyVal) :
    TupleConverter.to_json fmts v
      = (pyIter v).bind (fun elems =>
          (pyMapO (fun p => p.1.to_json p.2) (fmts.zip elems)).map PyVal.list) := by
  match fmts, h with
  | [], _ => rfl
  | _ :: _ :: _, _ => rfl
  | [f], h => exact absurd rfl h

theorem tupleFromJson_ne_one (fmts : List Conv) (h : fmts.length ≠ 1) (v : PyVal) :
    TupleConverter.from_json fmts v
      = (pyIter v).bind (fun elems =>
          (pyMapO (fun p => p.1.from_json p.2) (fmts.zip elems)).map PyVal.tuple) := by
  match fmts, h with
  | [], _ => rfl
  | _ :: _ :: _, _ => rfl
  | [f], h => exact absurd rfl h

/-- C6: every value Storage.fetch yields satisfies the validator; the
first stored text whose decoded value the validator rejects raises a
ValueError at that item, aborting the iteration right there (after the
valid prefix, nothing silently skipped); and fetch is exactly this loop
over the texts stored under the bound key. -/
theorem fetch_validation :
    (∀ (st : Storage) (texts : List String) (v : PyVal),
        v ∈ (fetchItems st texts).1 → st.strategy v = true)
    ∧ (∀ (st : Storage) (texts1 : List String) (vs : List PyVal) (t : String)
        (texts2 : List String) (j v : PyVal),
        fetchItems st texts1 = (vs, Option.none) →
        loads t = some j → st.converter.from_json j = some v → st.strategy v = false →
        fetchItems st (texts1 ++ t :: texts2)
          = (vs, some ("Value " ++ pyRepr (PyVal.str t)
              ++ " does not match description " ++ st.key)))
    ∧ (∀ (st : Storage) (db : List (String × String)),
        Storage.fetch st db = fetchItems st (SQLiteBackend.fetch db st.key)) := by
  refine ⟨?_, ?_, fun st db => rfl⟩
  · intro st texts
    induction texts with
    | nil => intro v hv; simp [fetchItems] at hv
    | cons t rest ih =>
      intro v hv
      cases hl : loads t with
      | none => simp [fetchItems, hl] at hv
      | some j =>
        cases hd : st.converter.from_json j with
        | none => simp [fetchItems, hl, hd] at hv
        | some w =>
          by_cases hs : st.strategy w = true
          · simp only [fetchItems, hl, hd, hs, if_true] at hv
            rcases List.mem_cons.mp hv with hv | hv
            · rw [hv]; exact hs
            · exact ih v hv
          · have hs2 : st.strategy w = false := by simpa using hs
            simp [fetchItems, hl, hd, hs2] at hv
  · intro st texts1
    induction texts1 with
    | nil =>
      intro vs t texts2 j v h0 hl hd hs
      simp only [fetchItems] at h0
      obtain ⟨hvs, -⟩ := Prod.mk.inj h0
      subst hvs
      simp [fetchItems, hl, hd, hs]
    | cons t1 rest ih =>
      intro vs t texts2 j v h0 hl hd hs
      cases hl1 : loads t1 with
      | none => simp [fetchItems, hl1] at h0
      | some j1 =>
        cases hd1 : st.converter.from_json j1 with
        | none => simp [fetchItems, hl1, hd1] at h0
        | some w =>
          by_cases hs1 : st.strategy w = true
          · rcases hr : fetchItems st rest with ⟨vs1, e1⟩
            simp only [fetchItems, hl1, hd1, hs1, if_true, hr] at h0
            obtain ⟨hvs, he1⟩ := Prod.mk.inj h0
            have ihres := ih vs1 t texts2 j v (by rw [hr, he1]) hl hd hs
            rw [← hvs]
            simp only [List.cons_append, fetchItems, hl1, hd1, hs1, if_true]
            rw [show List.append rest (t :: texts2) = rest ++ t :: texts2 from rfl, ihres]
          · have hs2 : st.strategy w = false := by simpa using hs1
            simp [fetchItems, hl1, hd1, hs2] at h0

/-- Witness for C6: a stored text deserializing to 7 fails a validator
accepting only 5, so fetch yields nothing and raises. -/
theorem fetch_validation_witness :
    fetchItems ⟨⟨DescShape.intS, 0⟩, "int", generic_format, fun v => v = PyVal.int 5⟩ ["7"]
      = ([], some "Value \x277\x27 does not match description int") :=
  fetch_validation.2.1
    (⟨⟨DescShape.intS, 0⟩, "int", generic_format, fun v => v = PyVal.int 5⟩ : Storage)
    [] [] "7" [] (PyVal.int 7) (PyVal.int 7) rfl (by decide) rfl (by decide)

/-- C7: the tuple converter encodes an arity-1 tuple as the bare encoded
element (not a 1-array), any other arity as the array of per-position
encodings in order; decode inverts this (re-wrapping the bare element
into a 1-tuple), so whenever each component round-trips through its
sub-converter the whole tuple round-trips:
decode (encode t) = t. -/
theorem tuple_converter_spec :
    (∀ (f : Conv) (v : PyVal),
        TupleConverter.to_json [f] (PyVal.tuple [v]) = f.to_json v
        ∧ ∀ j, TupleConverter.from_json [f] j
            = (f.from_json j).map (fun x => PyVal.tuple [x]))
    ∧ (∀ (fmts : List Conv) (vs js : List PyVal), fmts.length ≠ 1 →
        pyMapO (fun p => p.1.to_json p.2) (fmts.zip vs) = some js →
        TupleConverter.to_json fmts (PyVal.tuple vs) = some (PyVal.list js))
    ∧ (∀ (fmts : List Conv) (vs : List PyVal), List.Forall₂ RoundTrips fmts vs →
        (TupleConverter.to_json fmts (PyVal.tuple vs)).bind (TupleConverter.from_json fmts)
          = some (PyVal.tuple vs)) := by
  refine ⟨fun f v => ⟨rfl, fun j => rfl⟩, ?_, ?_⟩
  · intro fmts vs js hne hmap
    rw [tupleToJson_ne_one _ hne]
    simp only [pyIter, Option.some_bind]
    rw [hmap]
    rfl
  · intro fmts vs hf
    cases fmts with
    | nil =>
      cases hf
      rfl
    | cons f1 rest1 =>
      cases rest1 with
      | nil =>
        match vs, hf with
        | [v0], List.Forall₂.cons hrt List.Forall₂.nil =>
          obtain ⟨j, hj1, hj2⟩ := hrt
          have hto : TupleConverter.to_json [f1] (PyVal.tuple [v0]) = f1.to_json v0 := rfl
          rw [hto, hj1]
          simp only [Option.some_bind]
          have hfrom : TupleConverter.from_json [f1] j
              = (f1.from_json j).map (fun x => PyVal.tuple [x]) := rfl
          rw [hfrom, hj2]
          rfl
      | cons f2 rest2 =>
        have hne : (f1 :: f2 :: rest2).length ≠ 1 := by simp
        obtain ⟨js, hjs1, hjs2⟩ := pyMapO_zip_rt _ _ hf
        rw [tupleToJson_ne_one _ hne]
        simp only [pyIter, Option.some_bind]
        rw [hjs1]
        simp only [Option.map_some', Option.some_bind]
        rw [tupleFromJson_ne_one _ hne]
        simp only [pyIter, Option.some_bind]
        rw [hjs2]
        rfl

/-- Witness for C7: a 2-tuple of ints under two pass-through
sub-converters round-trips. -/
theorem tuple_converter_spec_witness :
    (TupleConverter.to_json [generic_format, generic_format]
        (PyVal.tuple [PyVal.int 1, PyVal.int 2])).bind
      (TupleConverter.from_json [generic_format, generic_format])
      = some (PyVal.tuple [PyVal.int 1, PyVal.int 2]) :=
  tuple_converter_spec.2.2 [generic_format, generic_format] [PyVal.int 1, PyVal.int 2]
    (List.Forall₂.cons ⟨PyVal.int 1, rfl, rfl⟩
      (List.Forall₂.cons ⟨PyVal.int 2, rfl, rfl⟩ List.Forall₂.nil))

/-- C8: the fixed-shape record converter encodes the values in canonical
key order — keys sorted by the pair (type name, textual representation)
— so the encoding depends only on what each canonical key maps to,
never on the construction order of the record being encoded; the
canonical key list of a constructed converter is sorted under that
relation; and decode re-zips the canonical key list with the decoded
array to rebuild the record. -/
theorem fixed_key_dict_canonical :
    (∀ (formats : List (PyVal × Conv)) (v1 v2 : PyVal),
        (∀ kf ∈ formats, pyGetItem v1 kf.1 = pyGetItem v2 kf.1) →
        FixedKeyDictConverter.to_json formats v1 = FixedKeyDictConverter.to_json formats v2)
    ∧ (∀ entries : List (PyVal × Conv),
        List.Sorted keyRel ((FixedKeyDictConverter.mkFormats entries).map (fun p => p.1)))
    ∧ (∀ (formats : List (PyVal × Conv)) (vs : List PyVal) (v : PyVal),
        List.Forall₂ (fun kf x => pyGetItem v kf.1 = some x ∧ RoundTrips kf.2 x) formats vs →
        (FixedKeyDictConverter.to_json formats v).bind
            (FixedKeyDictConverter.from_json formats)
          = some (PyVal.dict ((formats.map (fun p => p.1)).zip vs))) := by
  refine ⟨?_, mkFormats_keys_sorted, ?_⟩
  · intro formats v1 v2 h
    unfold FixedKeyDictConverter.to_json
    rw [pyMapO_congr _ _ formats (fun kf hkf => by rw [h kf hkf])]
  · intro formats vs v hf
    obtain ⟨js, hjs1, hjs2⟩ := fkd_zip_rt formats vs v hf
    unfold FixedKeyDictConverter.to_json FixedKeyDictConverter.from_json
    rw [hjs1]
    simp only [Option.map_some', Option.some_bind, pyIter]
    rw [hjs2]
    rfl

/-- Witness for C8 at the spec example: under the canonical (a, b)
format list, the records constructed as (b ↦ 1, a ↦ 2) and as
(a ↦ 2, b ↦ 1) encode to the identical array. -/
theorem fixed_key_dict_canonical_witness :
    FixedKeyDictConverter.to_json
        [(PyVal.str "a", generic_format), (PyVal.str "b", generic_format)]
        (PyVal.dict [(PyVal.str "b", PyVal.int 1), (PyVal.str "a", PyVal.int 2)])
      = FixedKeyDictConverter.to_json
        [(PyVal.str "a", generic_format), (PyVal.str "b", generic_format)]
        (PyVal.dict [(PyVal.str "a", PyVal.int 2), (PyVal.str "b", PyVal.int 1)]) :=
  fixed_key_dict_canonical.1 _ _ _ (by decide)

/-- C9 counterexample: a stored array of the wrong arity does not make
the tuple converter's decode fail — decoding a 3-element array with a
2-slot converter produces a 2-tuple value instead of raising a decode
error, because zip silently truncates. -/
theorem tuple_decode_wrong_arity_value :
    TupleConverter.from_json [generic_format, generic_format]
        (PyVal.list [PyVal.int 1, PyVal.int 2, PyVal.int 3])
      = some (PyVal.tuple [PyVal.int 1, PyVal.int 2]) := rfl

/-- C9 amended: for a structurally malformed stored array whose arity
does not match, the tuple and fixed-key record converters do not raise
a decode error; zip truncates the pairing to the shorter side, and
(provided each per-slot decode succeeds) decode produces a value of
arity min(expected, actual).  The mismatch can only surface afterwards,
as the validation failure in fetch, which does abort at that item. -/
theorem decode_zip_truncates :
    (∀ (fmts : List Conv) (elems : List PyVal), fmts.length ≠ 1 →
        (∀ p ∈ fmts.zip elems, (p.1.from_json p.2).isSome = true) →
        ∃ vs, TupleConverter.from_json fmts (PyVal.list elems) = some (PyVal.tuple vs)
          ∧ vs.length = min fmts.length elems.length)
    ∧ (∀ (formats : List (PyVal × Conv)) (elems : List PyVal),
        (∀ p ∈ formats.zip elems, (p.1.2.from_json p.2).isSome = true) →
        ∃ es, FixedKeyDictConverter.from_json formats (PyVal.list elems)
            = some (PyVal.dict es)
          ∧ es.length = min formats.length elems.length) := by
  constructor
  · intro fmts elems hne hall
    obtain ⟨vs, hvs, hlen⟩ := pyMapO_of_isSome _ _ hall
    refine ⟨vs, ?_, ?_⟩
    · rw [tupleFromJson_ne_one _ hne]
      simp only [pyIter, Option.some_bind]
      rw [hvs]
      rfl
    · rw [hlen, List.length_zip]
  · intro formats elems hall
    have hall2 : ∀ p ∈ formats.zip elems,
        (((p : (PyVal × Conv) × PyVal).1.2.from_json p.2).map
          (fun x => (p.1.1, x))).isSome = true := by
      intro p hp
      have hps := hall p hp
      cases hx : p.1.2.from_json p.2 with
      | none => rw [hx] at hps; simp at hps
      | some y => rfl
    obtain ⟨es, hes, hlen⟩ := pyMapO_of_isSome _ _ hall2
    refine ⟨es, ?_, ?_⟩
    · unfold FixedKeyDictConverter.from_json
      simp only [pyIter, Option.some_bind]
      rw [hes]
      rfl
    · rw [hlen, List.length_zip]

/-- Witness for the amended C9: the concrete wrong-arity array of three
elements decoded by a two-slot tuple converter yields a value of arity
min 2 3 = 2, not a decode error. -/
theorem decode_zip_truncates_witness :
    ∃ vs, TupleConverter.from_json [generic_format, generic_format]
        (PyVal.list [PyVal.int 1, PyVal.int 2, PyVal.int 3]) = some (PyVal.tuple vs)
      ∧ vs.length = min 2 3 :=
  decode_zip_truncates.1 [generic_format, generic_format]
    [PyVal.int 1, PyVal.int 2, PyVal.int 3] (by decide) (by decide)

/-- C10: when no alternative's validator accepts the value, the OneOf
converter's to_json falls off the end of its loop and returns Python
None instead of raising; if such a value passes the storage's own
validator and reaches save, the serialized null payload is what gets
written to the backend. -/
theorem one_of_no_match (c : OneOfConverter) (v : PyVal)
    (h : ∀ s ∈ c.strategies, s v = false) :
    OneOfConverter.to_json c v = some PyVal.none
    ∧ ∀ (st : Storage) (db : List (String × String)),
        st.converter = one_of_converter c → st.strategy v = true →
        Storage.save st db v = (SQLiteBackend.save db st.key "null", Option.none) := by
  have hto : OneOfConverter.to_json c v = some PyVal.none :=
    oneOfLoop_no_match c.strategies c.formats 0 v h
  refine ⟨hto, ?_⟩
  intro st db hconv hacc
  have hcv : st.converter.to_json v = some PyVal.none := by rw [hconv]; exact hto
  simp [Storage.save, hacc, hcv, dumps]

/-- Witness for C10: a one-alternative union whose strategy rejects
everything encodes 7 as None, and a permissive storage then writes the
text null. -/
theorem one_of_no_match_witness :
    OneOfConverter.to_json ⟨[generic_format], [fun _ => false]⟩ (PyVal.int 7)
      = some PyVal.none
    ∧ Storage.save
        ⟨⟨DescShape.intS, 0⟩, "int",
          one_of_converter ⟨[generic_format], [fun _ => false]⟩, fun _ => true⟩ []
        (PyVal.int 7)
      = ([("int", "null")], Option.none) := by
  have H := one_of_no_match ⟨[generic_format], [fun _ => false]⟩ (PyVal.int 7)
    (by intro s hs; rw [List.mem_singleton] at hs; subst hs; rfl)
  refine ⟨H.1, ?_⟩
  rw [H.2 _ [] rfl rfl]
  rfl
